import Mathlib

/-!
Verification of the mindmap repository: the neighbor-expansion endpoint of
`src/server.js` and the `GraphRenderer` of the public client, shallowly
embedded as executable Lean functions. Machine numbers of the client's
layout code are modelled with `Int`/`Rat` (the concrete values involved are
exactly representable), and the SQLite tables with explicit record lists.
-/

namespace Mindmap

/-- A row of the `nodes` table (fields the traversal reads). -/
structure NodeRec where
  id : String
  graph_id : String
  name : String
  type : String
deriving DecidableEq, Repr

/-- A row of the `relationships` table (fields the traversal reads). -/
structure RelRec where
  id : String
  graph_id : String
  source : String
  target : String
  type : String
deriving DecidableEq, Repr

/-- The store: the two tables, in row order (a fixed snapshot). -/
structure DB where
  nodes : List NodeRec
  rels : List RelRec
deriving DecidableEq, Repr

/-- `SELECT * FROM nodes WHERE graph_id = ? AND name = ?` followed by `.get`
(first matching row or nothing). -/
def findNode (db : DB) (g n : String) : Option NodeRec :=
  (db.nodes.filter (fun r => r.graph_id = g ∧ r.name = n)).head?

/-- `SELECT * FROM relationships WHERE graph_id = ? AND source IN (frontier)`. -/
def outRels (db : DB) (g : String) (frontier : List String) : List RelRec :=
  db.rels.filter (fun r => r.graph_id = g ∧ r.source ∈ frontier)

/-- `SELECT * FROM relationships WHERE graph_id = ? AND target IN (frontier)`. -/
def inRels (db : DB) (g : String) (frontier : List String) : List RelRec :=
  db.rels.filter (fun r => r.graph_id = g ∧ r.target ∈ frontier)

/-- The mutable locals of the BFS loop in `GET /api/graph/:id/node/:name`:
`visited`, the frontier being built (`nextFrontier` inside a round), and the
accumulated `allNodes` / `allRels`. -/
structure ExpSt where
  visited : List String
  frontier : List String
  allNodes : List NodeRec
  allRels : List RelRec
deriving DecidableEq, Repr

/-- The `for (const name of [rel.source, rel.target])` body: if `name` is not
visited, mark it visited, push it on the next frontier, and append the node
record when the name lookup succeeds. -/
def visitOne (db : DB) (g : String) (s : ExpSt) (name : String) : ExpSt :=
  if name ∈ s.visited then s
  else
    let s1 : ExpSt :=
      { s with visited := s.visited ++ [name], frontier := s.frontier ++ [name] }
    match findNode db g name with
    | some nb => { s1 with allNodes := s1.allNodes ++ [nb] }
    | none => s1

/-- The `for (const rel of rels)` body: push the relationship on `allRels`
unconditionally, then visit its source and its target. -/
def procRel (db : DB) (g : String) (s : ExpSt) (r : RelRec) : ExpSt :=
  visitOne db g (visitOne db g { s with allRels := s.allRels ++ [r] } r.source) r.target

/-- One round of the depth loop: batched out/in relationship queries for the
current frontier, then the per-relationship body; the frontier is reset and
rebuilt as `nextFrontier`. -/
def runRound (db : DB) (g : String) (st : ExpSt) : ExpSt :=
  let rels := outRels db g st.frontier ++ inRels db g st.frontier
  rels.foldl (procRel db g) { st with frontier := [] }

/-- `for (let d = 0; d < depth; d++) { if (frontier.length === 0) break; … }`. -/
def expandLoop (db : DB) (g : String) : Nat → ExpSt → ExpSt
  | 0, st => st
  | d + 1, st =>
    if st.frontier.isEmpty then st else expandLoop db g d (runRound db g st)

/-- `Math.min(parseInt(req.query.depth) || 1, 3)`: `none` stands for a query
value `parseInt` cannot parse (`NaN`, falsy, so the default 1 applies); a
parsed 0 is falsy too and also falls back to 1; everything is capped at 3. -/
def parseDepth (q : Option Int) : Int :=
  match q with
  | none => 1
  | some v => min (if v = 0 then 1 else v) 3

/-- The stable per-relationship identity `` `${r.graph_id}-${r.id}` `` used
for deduplication (as a pair, which the string template encodes). -/
def dedupKey (r : RelRec) : String × String := (r.graph_id, r.id)

/-- `allRels.filter` with the growing `relSet`: keep a relationship iff its
key has not been seen, recording kept keys. -/
def dedupRelsAux : List RelRec → List (String × String) → List RelRec
  | [], _ => []
  | r :: rs, seen =>
    if dedupKey r ∈ seen then dedupRelsAux rs seen
    else r :: dedupRelsAux rs (seen ++ [dedupKey r])

/-- The `uniqueRels` computation of `src/server.js`. -/
def dedupRels (rs : List RelRec) : List RelRec := dedupRelsAux rs []

/-- The JSON body `{ node, nodes, relationships }` of a successful response. -/
structure ExpandResult where
  node : NodeRec
  nodes : List NodeRec
  relationships : List RelRec
deriving DecidableEq, Repr

/-- `GET /api/graph/:id/node/:name?depth=q`: 404 `Node not found` when the
start name has no row, otherwise the BFS result with deduplicated edges. -/
def expandEndpoint (db : DB) (g n : String) (q : Option Int) :
    Except String ExpandResult :=
  match findNode db g n with
  | none => .error "Node not found"
  | some node =>
    let st := expandLoop db g (parseDepth q).toNat
      { visited := [n], frontier := [n], allNodes := [node], allRels := [] }
    .ok { node := node, nodes := st.allNodes, relationships := dedupRels st.allRels }

/-- Number of returned nodes of a response, 0 on error. -/
def resNodesLen : Except String ExpandResult → Nat
  | .ok r => r.nodes.length
  | .error _ => 0

/-- Number of returned relationships of a response, 0 on error. -/
def resRelsLen : Except String ExpandResult → Nat
  | .ok r => r.relationships.length
  | .error _ => 0

/-! ### Concrete stores used by the scenarios -/

/-- Node `A` of the example graph `g`. -/
def nA : NodeRec := ⟨"1", "g", "A", "T"⟩

/-- Node `B` of the example graph `g`. -/
def nB : NodeRec := ⟨"2", "g", "B", "T"⟩

/-- Node `C` of the example graph `g`. -/
def nC : NodeRec := ⟨"3", "g", "C", "T"⟩

/-- Node `D` of the example graph `g`. -/
def nD : NodeRec := ⟨"4", "g", "D", "T"⟩

/-- Relationship `A → B`. -/
def rAB : RelRec := ⟨"e1", "g", "A", "B", "R"⟩

/-- Relationship `A → C`. -/
def rAC : RelRec := ⟨"e2", "g", "A", "C", "R"⟩

/-- Relationship `B → D`. -/
def rBD : RelRec := ⟨"e3", "g", "B", "D", "R"⟩

/-- Relationship `C → D`. -/
def rCD : RelRec := ⟨"e4", "g", "C", "D", "R"⟩

/-- Two nodes joined by one edge. -/
def dbPair : DB := ⟨[nA, nB], [rAB]⟩

/-- The diamond `A→B, A→C, B→D, C→D`. -/
def dbDiamond : DB := ⟨[nA, nB, nC, nD], [rAB, rAC, rBD, rCD]⟩

/-- A store holding the edge `A→B` but no node record for `B`. -/
def dbDangling : DB := ⟨[nA], [rAB]⟩

/-! ### Structural lemmas about the BFS loop -/

theorem head?_mem {α : Type} {l : List α} {x : α} (h : l.head? = some x) :
    x ∈ l := by
  cases l with
  | nil => simp at h
  | cons a t =>
    simp only [List.head?] at h
    injection h with hx
    subst hx
    exact List.mem_cons_self _ _

theorem findNode_mem {db : DB} {g n : String} {nb : NodeRec}
    (h : findNode db g n = some nb) :
    nb ∈ db.nodes ∧ nb.graph_id = g ∧ nb.name = n := by
  have hm := head?_mem h
  have hf := List.mem_filter.mp hm
  exact ⟨hf.1, of_decide_eq_true hf.2⟩

theorem visitOne_allNodes_inv {db : DB} {g : String} {s : ExpSt} {name : String}
    (hs : ∀ x ∈ s.allNodes, x ∈ db.nodes ∧ x.graph_id = g) :
    ∀ x ∈ (visitOne db g s name).allNodes, x ∈ db.nodes ∧ x.graph_id = g := by
  unfold visitOne
  split
  · exact hs
  · cases hf : findNode db g name with
    | some nb =>
      simp only [hf]
      intro x hx
      rcases List.mem_append.mp hx with h1 | h2
      · exact hs x h1
      · have hx2 : x = nb := by simpa using h2
        subst hx2
        exact ⟨(findNode_mem hf).1, (findNode_mem hf).2.1⟩
    | none => simp only [hf]; exact hs

theorem procRel_allNodes_inv {db : DB} {g : String} {s : ExpSt} {r : RelRec}
    (hs : ∀ x ∈ s.allNodes, x ∈ db.nodes ∧ x.graph_id = g) :
    ∀ x ∈ (procRel db g s r).allNodes, x ∈ db.nodes ∧ x.graph_id = g := by
  unfold procRel
  exact visitOne_allNodes_inv (visitOne_allNodes_inv (by simpa using hs))

theorem foldl_procRel_allNodes_inv {db : DB} {g : String} (rels : List RelRec) :
    ∀ s : ExpSt, (∀ x ∈ s.allNodes, x ∈ db.nodes ∧ x.graph_id = g) →
      ∀ x ∈ (rels.foldl (procRel db g) s).allNodes, x ∈ db.nodes ∧ x.graph_id = g := by
  induction rels with
  | nil => intro s hs; simpa using hs
  | cons r rs ih =>
    intro s hs
    exact ih (procRel db g s r) (procRel_allNodes_inv hs)

theorem runRound_allNodes_inv {db : DB} {g : String} {st : ExpSt}
    (hs : ∀ x ∈ st.allNodes, x ∈ db.nodes ∧ x.graph_id = g) :
    ∀ x ∈ (runRound db g st).allNodes, x ∈ db.nodes ∧ x.graph_id = g := by
  unfold runRound
  exact foldl_procRel_allNodes_inv _ _ (by simpa using hs)

theorem expandLoop_allNodes_inv {db : DB} {g : String} :
    ∀ (d : Nat) (st : ExpSt),
      (∀ x ∈ st.allNodes, x ∈ db.nodes ∧ x.graph_id = g) →
      ∀ x ∈ (expandLoop db g d st).allNodes, x ∈ db.nodes ∧ x.graph_id = g := by
  intro d
  induction d with
  | zero => intro st hs; simpa [expandLoop] using hs
  | succ d ih =>
    intro st hs
    unfold expandLoop
    split
    · exact hs
    · exact ih _ (runRound_allNodes_inv hs)

theorem visitOne_allNodes_ext (db : DB) (g : String) (s : ExpSt) (name : String) :
    ∃ t, (visitOne db g s name).allNodes = s.allNodes ++ t := by
  unfold visitOne
  split
  · exact ⟨[], by simp⟩
  · cases hf : findNode db g name with
    | some nb => exact ⟨[nb], by simp [hf]⟩
    | none => exact ⟨[], by simp [hf]⟩

theorem procRel_allNodes_ext (db : DB) (g : String) (s : ExpSt) (r : RelRec) :
    ∃ t, (procRel db g s r).allNodes = s.allNodes ++ t := by
  unfold procRel
  obtain ⟨t1, h1⟩ := visitOne_allNodes_ext db g
    { s with allRels := s.allRels ++ [r] } r.source
  obtain ⟨t2, h2⟩ := visitOne_allNodes_ext db g
    (visitOne db g { s with allRels := s.allRels ++ [r] } r.source) r.target
  exact ⟨t1 ++ t2, by simp [h2, h1]⟩

theorem foldl_procRel_allNodes_ext (db : DB) (g : String) (rels : List RelRec) :
    ∀ s : ExpSt, ∃ t, (rels.foldl (procRel db g) s).allNodes = s.allNodes ++ t := by
  induction rels with
  | nil => intro s; exact ⟨[], by simp⟩
  | cons r rs ih =>
    intro s
    obtain ⟨t1, h1⟩ := procRel_allNodes_ext db g s r
    obtain ⟨t2, h2⟩ := ih (procRel db g s r)
    exact ⟨t1 ++ t2, by simp [h2, h1]⟩

theorem runRound_allNodes_ext (db : DB) (g : String) (st : ExpSt) :
    ∃ t, (runRound db g st).allNodes = st.allNodes ++ t := by
  unfold runRound
  obtain ⟨t, h⟩ := foldl_procRel_allNodes_ext db g
    (outRels db g st.frontier ++ inRels db g st.frontier) { st with frontier := [] }
  exact ⟨t, by simpa using h⟩

theorem expandLoop_allNodes_ext (db : DB) (g : String) :
    ∀ (d : Nat) (st : ExpSt), ∃ t, (expandLoop db g d st).allNodes = st.allNodes ++ t := by
  intro d
  induction d with
  | zero => intro st; exact ⟨[], by simp [expandLoop]⟩
  | succ d ih =>
    intro st
    unfold expandLoop
    split
    · exact ⟨[], by simp⟩
    · obtain ⟨t1, h1⟩ := runRound_allNodes_ext db g st
      obtain ⟨t2, h2⟩ := ih (runRound db g st)
      exact ⟨t1 ++ t2, by simp [h2, h1]⟩

theorem expandLoop_of_empty {db : DB} {g : String} {st : ExpSt}
    (h : st.frontier.isEmpty = true) : ∀ b, expandLoop db g b st = st := by
  intro b
  cases b with
  | zero => rfl
  | succ b => simp [expandLoop, h]

theorem expandLoop_add (db : DB) (g : String) :
    ∀ (a b : Nat) (st : ExpSt),
      expandLoop db g (a + b) st = expandLoop db g b (expandLoop db g a st) := by
  intro a
  induction a with
  | zero => intro b st; simp [expandLoop]
  | succ a ih =>
    intro b st
    by_cases h : st.frontier.isEmpty
    · rw [expandLoop_of_empty h (a + 1 + b), expandLoop_of_empty h (a + 1),
        expandLoop_of_empty h b]
    · have l1 : expandLoop db g (a + 1 + b) st =
          expandLoop db g (a + b) (runRound db g st) := by
        rw [Nat.succ_add]
        simp [expandLoop, h]
      have l2 : expandLoop db g (a + 1) st =
          expandLoop db g a (runRound db g st) := by
        simp [expandLoop, h]
      rw [l1, l2, ih]

theorem dedupRelsAux_keys (k : String × String) :
    ∀ (rs : List RelRec) (seen : List (String × String)),
      (k ∈ (dedupRelsAux rs seen).map dedupKey ↔ k ∈ rs.map dedupKey ∧ k ∉ seen) := by
  intro rs
  induction rs with
  | nil => intro seen; simp [dedupRelsAux]
  | cons r rs ih =>
    intro seen
    unfold dedupRelsAux
    split
    case isTrue h =>
      rw [ih seen]
      simp only [List.map_cons, List.mem_cons]
      constructor
      · rintro ⟨h1, h2⟩
        exact ⟨Or.inr h1, h2⟩
      · rintro ⟨h1 | h1, h2⟩
        · exact absurd (show k ∈ seen by rw [h1]; exact h) h2
        · exact ⟨h1, h2⟩
    case isFalse h =>
      simp only [List.map_cons, List.mem_cons]
      rw [ih (seen ++ [dedupKey r])]
      constructor
      · rintro (h1 | ⟨h1, h2⟩)
        · exact ⟨Or.inl h1, h1 ▸ h⟩
        · exact ⟨Or.inr h1, fun hk => h2 (List.mem_append_left _ hk)⟩
      · rintro ⟨h1 | h1, h2⟩
        · exact Or.inl h1
        · by_cases hk : k = dedupKey r
          · exact Or.inl hk
          · refine Or.inr ⟨h1, fun hm => ?_⟩
            rcases List.mem_append.mp hm with hm | hm
            · exact h2 hm
            · exact hk (by simpa using hm)

theorem dedupRelsAux_keys_nodup :
    ∀ (rs : List RelRec) (seen : List (String × String)),
      ((dedupRelsAux rs seen).map dedupKey).Nodup := by
  intro rs
  induction rs with
  | nil => intro seen; simp [dedupRelsAux]
  | cons r rs ih =>
    intro seen
    unfold dedupRelsAux
    split
    · exact ih seen
    case isFalse h =>
      simp only [List.map_cons]
      refine List.nodup_cons.mpr ⟨fun hm => ?_, ih _⟩
      have hk := (dedupRelsAux_keys _ rs (seen ++ [dedupKey r])).mp hm
      exact hk.2 (List.mem_append_right _ (by simp))

theorem parseDepth_toNat_mono {d1 d2 : Int} (h : d1 ≤ d2) :
    (parseDepth (some d1)).toNat ≤ (parseDepth (some d2)).toNat := by
  simp only [parseDepth]
  by_cases h1 : d1 = 0 <;> by_cases h2 : d2 = 0 <;> simp [h1, h2] <;> omega

/-! ### The claims about the expansion endpoint -/

/-- C1, counterexample: the claim says `expand(g, n, 0)` returns exactly the
start node and no edges; on the two-node store `dbPair` a request with
`depth=0` actually returns 2 nodes and 1 edge, because
`parseInt(req.query.depth) || 1` treats the falsy value 0 as absent and
substitutes the default depth 1. -/
theorem claim_C1_counterexample :
    resNodesLen (expandEndpoint dbPair "g" "A" (some 0)) = 2 ∧
    resRelsLen (expandEndpoint dbPair "g" "A" (some 0)) = 1 ∧
    parseDepth (some 0) = 1 := by
  refine ⟨by rfl, by rfl, by rfl⟩

/-- C1 (amended): a requested depth of exactly 0 falls back to the default
depth 1 (0 is falsy under `|| 1`); a negative requested depth runs zero BFS
rounds, returning only the start node and no edges; any depth greater than 3
is clamped to 3, and the effective round count never exceeds 3. -/
theorem claim_C1_amended (db : DB) (g n : String) (v : Int) (node : NodeRec)
    (h : findNode db g n = some node) :
    (v < 0 → expandEndpoint db g n (some v) =
      .ok { node := node, nodes := [node], relationships := [] }) ∧
    parseDepth (some 0) = 1 ∧
    (3 < v → parseDepth (some v) = 3) ∧
    (parseDepth (some v)).toNat ≤ 3 := by
  refine ⟨?_, by rfl, ?_, ?_⟩
  · intro hv
    have hd : (parseDepth (some v)).toNat = 0 := by
      simp only [parseDepth]
      rw [if_neg (by omega)]
      omega
    simp [expandEndpoint, h, hd, expandLoop, dedupRels, dedupRelsAux]
  · intro hv
    simp only [parseDepth]
    rw [if_neg (by omega)]
    omega
  · simp only [parseDepth]
    by_cases h0 : v = 0 <;> simp [h0]

/-- Witness for C1 (amended) on the store `dbPair` at requested depth −1. -/
theorem claim_C1_witness :
    expandEndpoint dbPair "g" "A" (some (-1)) =
      .ok { node := nA, nodes := [nA], relationships := [] } :=
  (claim_C1_amended dbPair "g" "A" (-1) nA (by rfl)).1 (by decide)

/-- C2: the deduplicated edge list has pairwise-distinct edge identities
(`graph_id`-`id` keys) while keeping every identity that was collected, so
each discovered edge appears exactly once in any successful response; and on
the diamond `A→B, A→C, B→D, C→D`, `expand(g, A, 2)` returns all four nodes
and each of the four edges exactly once. -/
theorem claim_C2 :
    (∀ rs : List RelRec, ((dedupRels rs).map dedupKey).Nodup ∧
      ∀ k, k ∈ (dedupRels rs).map dedupKey ↔ k ∈ rs.map dedupKey) ∧
    (∀ (db : DB) (g n : String) (q : Option Int) (r : ExpandResult),
      expandEndpoint db g n q = .ok r → (r.relationships.map dedupKey).Nodup) ∧
    expandEndpoint dbDiamond "g" "A" (some 2) =
      .ok { node := nA, nodes := [nA, nB, nC, nD],
            relationships := [rAB, rAC, rBD, rCD] } := by
  refine ⟨fun rs => ⟨dedupRelsAux_keys_nodup rs [], fun k => ?_⟩, ?_, by rfl⟩
  · rw [dedupRels, dedupRelsAux_keys k rs []]
    simp
  · intro db g n q r h
    cases hf : findNode db g n with
    | none => simp [expandEndpoint, hf] at h
    | some node =>
      simp only [expandEndpoint, hf, Except.ok.injEq] at h
      subst h
      exact dedupRelsAux_keys_nodup _ []

/-- Witness for C2's universally quantified parts, at the diamond store. -/
theorem claim_C2_witness :
    (({ node := nA, nodes := [nA, nB, nC, nD],
        relationships := [rAB, rAC, rBD, rCD] } : ExpandResult).relationships.map
      dedupKey).Nodup :=
  claim_C2.2.1 dbDiamond "g" "A" (some 2) _ (by rfl)

/-- C3: on a fixed store snapshot, for requested depths d1 < d2 the node
names returned by the expansion at depth d1 form a subset of those returned
at depth d2 (the BFS at the larger effective depth only extends the node
accumulator of the smaller one). -/
theorem claim_C3 (db : DB) (g n : String) (d1 d2 : Int) (r1 r2 : ExpandResult)
    (hlt : d1 < d2)
    (h1 : expandEndpoint db g n (some d1) = .ok r1)
    (h2 : expandEndpoint db g n (some d2) = .ok r2) :
    ∀ x ∈ r1.nodes.map NodeRec.name, x ∈ r2.nodes.map NodeRec.name := by
  cases hf : findNode db g n with
  | none => simp [expandEndpoint, hf] at h1
  | some node =>
    simp only [expandEndpoint, hf, Except.ok.injEq] at h1 h2
    subst h1
    subst h2
    have he : (parseDepth (some d1)).toNat ≤ (parseDepth (some d2)).toNat :=
      parseDepth_toNat_mono (le_of_lt hlt)
    have hsplit : (parseDepth (some d2)).toNat =
        (parseDepth (some d1)).toNat +
          ((parseDepth (some d2)).toNat - (parseDepth (some d1)).toNat) := by omega
    obtain ⟨t, ht⟩ := expandLoop_allNodes_ext db g
      ((parseDepth (some d2)).toNat - (parseDepth (some d1)).toNat)
      (expandLoop db g (parseDepth (some d1)).toNat
        { visited := [n], frontier := [n], allNodes := [node], allRels := [] })
    intro x hx
    simp only [List.mem_map] at hx ⊢
    obtain ⟨y, hy, hyx⟩ := hx
    refine ⟨y, ?_, hyx⟩
    show y ∈ (expandLoop db g (parseDepth (some d2)).toNat
      { visited := [n], frontier := [n], allNodes := [node], allRels := [] }).allNodes
    rw [hsplit, expandLoop_add, ht]
    exact List.mem_append_left _ hy

/-- Witness for C3 on the diamond store at depths 1 < 2: `B`, returned at
depth 1, is also among the names returned at depth 2. -/
theorem claim_C3_witness :
    "B" ∈ ([nA, nB, nC, nD] : List NodeRec).map NodeRec.name := by
  have h := claim_C3 dbDiamond "g" "A" 1 2
    { node := nA, nodes := [nA, nB, nC], relationships := [rAB, rAC] }
    { node := nA, nodes := [nA, nB, nC, nD], relationships := [rAB, rAC, rBD, rCD] }
    (by decide) (by rfl) (by rfl)
  exact h "B" (by decide)

/-- C6: when no node named `s` exists in graph `g` (the first `SELECT`
returns no row), the endpoint answers the structured 404 `Node not found`
error for every requested depth, returning no partial subgraph. -/
theorem claim_C6 (db : DB) (g s : String) (q : Option Int)
    (h : findNode db g s = none) :
    expandEndpoint db g s q = .error "Node not found" := by
  simp [expandEndpoint, h]

/-- Witness for C6: the empty store has no node named `X`. -/
theorem claim_C6_witness :
    expandEndpoint ⟨[], []⟩ "g" "X" (some 2) = .error "Node not found" :=
  claim_C6 ⟨[], []⟩ "g" "X" (some 2) (by rfl)

/-- C10: every node record the endpoint returns comes from an existing row
of the store (so missing endpoint names contribute no node entry), while
the edge list is not filtered by endpoint existence: on `dbDangling`, which
stores the edge `A→B` but no node `B`, the response keeps the edge `A→B`
whose target name `B` is absent from the returned node names, and `B` is
nevertheless marked visited by the BFS. -/
theorem claim_C10 :
    (∀ (db : DB) (g n : String) (q : Option Int) (r : ExpandResult),
        expandEndpoint db g n q = .ok r →
        ∀ x ∈ r.nodes, x ∈ db.nodes ∧ x.graph_id = g) ∧
    expandEndpoint dbDangling "g" "A" (some 1) =
      .ok { node := nA, nodes := [nA], relationships := [rAB] } ∧
    rAB.target ∉ ([nA] : List NodeRec).map NodeRec.name ∧
    rAB.target ∈ (expandLoop dbDangling "g" 1
      { visited := ["A"], frontier := ["A"], allNodes := [nA], allRels := [] }).visited := by
  refine ⟨?_, by rfl, by decide, by decide⟩
  intro db g n q r h
  cases hf : findNode db g n with
  | none => simp [expandEndpoint, hf] at h
  | some node =>
    simp only [expandEndpoint, hf, Except.ok.injEq] at h
    subst h
    refine expandLoop_allNodes_inv _ _ ?_
    intro x hx
    have hx1 : x = node := by simpa using hx
    subst hx1
    exact ⟨(findNode_mem hf).1, (findNode_mem hf).2.1⟩

/-- Witness for C10's universally quantified part, at the dangling store. -/
theorem claim_C10_witness : nA ∈ dbDangling.nodes ∧ nA.graph_id = "g" :=
  claim_C10.1 dbDangling "g" "A" (some 1)
    { node := nA, nodes := [nA], relationships := [rAB] } (by rfl) nA (by decide)

/-! ### The client renderer (`GraphRenderer` of `public/js/graph.js`) -/

/-- An input node of a render payload (fields `render` reads). -/
structure InNode where
  id : String
  name : String
  type : String
deriving DecidableEq, Repr

/-- An input relationship of a render payload. -/
structure InRel where
  source : String
  target : String
  type : String
deriving DecidableEq, Repr

/-- A render payload `{ nodes, relationships }`. -/
structure Payload where
  nodes : List InNode
  relationships : List InRel
deriving DecidableEq, Repr

/-- `n.name || String(n.id)`: the empty string is falsy, so the id stands in. -/
def effName (n : InNode) : String := if n.name = "" then n.id else n.name

/-- `n.type || 'Unknown'`. -/
def effType (n : InNode) : String := if n.type = "" then "Unknown" else n.type

/-- The names under which `nodeMap` holds an entry after processing nodes. -/
def activeNames (p : Payload) : List String := p.nodes.map effName

/-- The links kept by `render`: a relationship survives exactly when both
`nodeMap[rel.source]` and `nodeMap[rel.target]` exist (`if (src && tgt)`). -/
def renderLinks (p : Payload) : List InRel :=
  p.relationships.filter
    (fun r => r.source ∈ activeNames p ∧ r.target ∈ activeNames p)

/-- One `connectionCount[...] = (connectionCount[...] || 0) + 1` update. -/
def bump (f : String → Nat) (v : String) : String → Nat :=
  fun w => if w = v then f w + 1 else f w

/-- The `connectionCount` table after the link loop: every kept link bumps
its source name and its target name once (absent keys read as 0). -/
def connMap (links : List InRel) : String → Nat :=
  links.foldl (fun f r => bump (bump f r.source) r.target) (fun _ => 0)

/-- A processed node as `render` leaves it, `connections` included. -/
structure RNode where
  id : String
  name : String
  type : String
  connections : Nat
deriving DecidableEq, Repr

/-- The processed node list: `node.connections = connectionCount[node.name] || 0`. -/
def renderNodes (p : Payload) : List RNode :=
  p.nodes.map (fun n =>
    { id := n.id, name := effName n, type := effType n,
      connections := connMap (renderLinks p) (effName n) })

/-- `this.nodes.length > 200 ? -400 : this.nodes.length > 100 ? -600 : -800`. -/
def chargeStrength (n : Nat) : Int :=
  if n > 200 then -400 else if n > 100 then -600 else -800

/-- `this.nodes.length > 200 ? 160 : this.nodes.length > 100 ? 220 : 280`. -/
def linkDistance (n : Nat) : Nat :=
  if n > 200 then 160 else if n > 100 then 220 else 280

/-- `toLowerCase`, modelled character-wise (the rendered names are ASCII). -/
def lowerStr (s : String) : String := ⟨s.data.map Char.toLower⟩

/-- `new Set(names.map(n => n.toLowerCase()))`, as the list of lowered names. -/
def searchMatches (names : List String) : List String := names.map lowerStr

/-- The visual classes `highlightNodes` assigns, one flag per element of the
rendered node list / link list, in order. -/
structure Classes where
  nodesHighlighted : List Bool
  nodesFaded : List Bool
  nodeLabelsFaded : List Bool
  linksFaded : List Bool
  linkLabelsFaded : List Bool
deriving DecidableEq, Repr

/-- The all-neutral class assignment (no `highlighted`, no `faded`). -/
def neutralClasses (nodeNames : List String)
    (linkEnds : List (String × String)) : Classes :=
  { nodesHighlighted := nodeNames.map (fun _ => false),
    nodesFaded := nodeNames.map (fun _ => false),
    nodeLabelsFaded := nodeNames.map (fun _ => false),
    linksFaded := linkEnds.map (fun _ => false),
    linkLabelsFaded := linkEnds.map (fun _ => false) }

/-- `highlightNodes(names)` over rendered nodes (by name) and links (by the
pair of endpoint names). Every class is assigned afresh by `classed` in both
branches, so the previous assignment `prev` is overwritten unread. -/
def highlightApply (names : List String) (nodeNames : List String)
    (linkEnds : List (String × String)) (_prev : Classes) : Classes :=
  let m := searchMatches names
  if names.length = 0 then
    neutralClasses nodeNames linkEnds
  else
    { nodesHighlighted := nodeNames.map (fun nm => m.contains (lowerStr nm)),
      nodesFaded := nodeNames.map (fun nm => !(m.contains (lowerStr nm))),
      nodeLabelsFaded := nodeNames.map (fun nm => !(m.contains (lowerStr nm))),
      linksFaded := linkEnds.map
        (fun e => !(m.contains (lowerStr e.1)) && !(m.contains (lowerStr e.2))),
      linkLabelsFaded := linkEnds.map
        (fun e => !(m.contains (lowerStr e.1)) && !(m.contains (lowerStr e.2))) }

/-- The extreme coordinates of the positioned nodes (`updateMinimap`'s
`minX/minY/maxX/maxY` scan; the `±Infinity` seeds are modelled by folding
from the first element, which agrees on every nonempty list). Positions are
rationals standing for the finite JS numbers involved. -/
structure Bounds where
  minX : Rat
  minY : Rat
  maxX : Rat
  maxY : Rat
deriving DecidableEq, Repr

/-- Bounding box of a nonempty position list, `none` when there are no
nodes (`if (!this.minimapCtx || !this.nodes.length) return`). -/
def boundsOf : List (Rat × Rat) → Option Bounds
  | [] => none
  | p :: ps =>
    some (ps.foldl
      (fun b q =>
        { minX := min b.minX q.1, minY := min b.minY q.2,
          maxX := max b.maxX q.1, maxY := max b.maxY q.2 })
      { minX := p.1, minY := p.2, maxX := p.1, maxY := p.2 })

/-- `maxX - minX || 1`: a zero range (falsy) is replaced by the default 1. -/
def safeRange (lo hi : Rat) : Rat := if hi - lo = 0 then 1 else hi - lo

/-- The minimap projection of `updateMinimap`: canvas 160×120, padding 10,
per-axis scales, the tighter scale, centering offsets, then the linear map
applied to every node position. Empty input projects to nothing. -/
def minimapProject (ps : List (Rat × Rat)) : List (Rat × Rat) :=
  match boundsOf ps with
  | none => []
  | some b =>
    let rangeX := safeRange b.minX b.maxX
    let rangeY := safeRange b.minY b.maxY
    let scaleX := (160 - 10 * 2) / rangeX
    let scaleY := (120 - 10 * 2) / rangeY
    let scale := min scaleX scaleY
    let offsetX := (160 - rangeX * scale) / 2
    let offsetY := (120 - rangeY * scale) / 2
    ps.map (fun p =>
      ((p.1 - b.minX) * scale + offsetX, (p.2 - b.minY) * scale + offsetY))

/-- `zoomToFit`: returns early (`none`) when there are no nodes or the
bounding box has zero width or height; otherwise the applied scale and
translation, with padding 60 and the 2× cap. -/
def zoomToFit (nodesLen : Nat) (bX bY bw bh w h : Rat) :
    Option (Rat × Rat × Rat) :=
  if nodesLen = 0 then none
  else if bw = 0 ∨ bh = 0 then none
  else
    let scale := min (min (w / (bw + 60 * 2)) (h / (bh + 60 * 2))) 2
    some (scale, w / 2 - (bX + bw / 2) * scale, h / 2 - (bY + bh / 2) * scale)

theorem bump_apply (f : String → Nat) (u v : String) :
    bump f u v = if v = u then f v + 1 else f v := rfl

theorem connMap_foldl (v : String) :
    ∀ (links : List InRel) (f : String → Nat),
      (links.foldl (fun f r => bump (bump f r.source) r.target) f) v =
        f v + links.countP (fun r => r.source = v) +
          links.countP (fun r => r.target = v) := by
  intro links
  induction links with
  | nil => intro f; simp
  | cons r rs ih =>
    intro f
    simp only [List.foldl_cons, List.countP_cons]
    rw [ih, bump_apply, bump_apply]
    by_cases h1 : v = r.source <;> by_cases h2 : v = r.target
    · rw [if_pos h2, if_pos h1, if_pos (decide_eq_true h1.symm),
        if_pos (decide_eq_true h2.symm)]
      omega
    · rw [if_neg h2, if_pos h1, if_pos (decide_eq_true h1.symm),
        if_neg (by simp only [decide_eq_true_eq]; exact fun hh => h2 hh.symm)]
      omega
    · rw [if_pos h2, if_neg h1,
        if_neg (by simp only [decide_eq_true_eq]; exact fun hh => h1 hh.symm),
        if_pos (decide_eq_true h2.symm)]
      omega
    · rw [if_neg h2, if_neg h1,
        if_neg (by simp only [decide_eq_true_eq]; exact fun hh => h1 hh.symm),
        if_neg (by simp only [decide_eq_true_eq]; exact fun hh => h2 hh.symm)]
      omega

theorem renderNodes_names (p : Payload) :
    (renderNodes p).map RNode.name = activeNames p := by
  simp [renderNodes, activeNames, List.map_map, Function.comp]

/-! ### The claims about the renderer -/

/-- A payload with one resolvable link `A→B`, one dangling link `A→X`
(no node named `X`), and one self-loop `A→A`. -/
def plSelf : Payload :=
  ⟨[⟨"1", "A", "T"⟩, ⟨"2", "B", "T"⟩],
    [⟨"A", "B", "R"⟩, ⟨"A", "X", "R"⟩, ⟨"A", "A", "R"⟩]⟩

/-- Node `A` of `plSelf` as `render` leaves it. -/
def rnA : RNode := { id := "1", name := "A", type := "T", connections := 3 }

/-- C4: every link kept by `render` has both endpoint names among the names
of the active (rendered) node set, and a relationship is kept exactly when
both endpoints resolve — one referencing a missing endpoint is silently
dropped (the embedding is total: no error is raised). -/
theorem claim_C4 (p : Payload) :
    (∀ r ∈ renderLinks p,
      r.source ∈ (renderNodes p).map RNode.name ∧
        r.target ∈ (renderNodes p).map RNode.name) ∧
    (∀ r, r ∈ renderLinks p ↔
      r ∈ p.relationships ∧ r.source ∈ activeNames p ∧ r.target ∈ activeNames p) := by
  constructor
  · intro r hr
    have hm := List.mem_filter.mp hr
    have hp := of_decide_eq_true hm.2
    rw [renderNodes_names]
    exact hp
  · intro r
    rw [renderLinks, List.mem_filter]
    constructor
    · rintro ⟨h1, h2⟩
      exact ⟨h1, of_decide_eq_true h2⟩
    · rintro ⟨h1, h2⟩
      exact ⟨h1, decide_eq_true h2⟩

/-- Witness for C4 on `plSelf`: the resolvable link is kept, the dangling
link is excluded. -/
theorem claim_C4_witness :
    (⟨"A", "B", "R"⟩ : InRel) ∈ renderLinks plSelf ∧
    ¬((⟨"A", "X", "R"⟩ : InRel) ∈ renderLinks plSelf) := by
  constructor
  · exact ((claim_C4 plSelf).2 ⟨"A", "B", "R"⟩).mpr (by decide)
  · intro hmem
    have h := ((claim_C4 plSelf).2 ⟨"A", "X", "R"⟩).mp hmem
    exact absurd h.2.2 (by decide)

/-- C5: after `render`, every rendered node's `connections` equals the
number of kept links having it as source plus the number having it as
target (a self-loop therefore counts once per side, twice in total). -/
theorem claim_C5 (p : Payload) :
    ∀ nd ∈ renderNodes p,
      nd.connections =
        (renderLinks p).countP (fun r => r.source = nd.name) +
          (renderLinks p).countP (fun r => r.target = nd.name) := by
  intro nd hnd
  simp only [renderNodes, List.mem_map] at hnd
  obtain ⟨n, hn, he⟩ := hnd
  subst he
  show connMap (renderLinks p) (effName n) =
    (renderLinks p).countP (fun r => r.source = effName n) +
      (renderLinks p).countP (fun r => r.target = effName n)
  rw [connMap, connMap_foldl]
  omega

/-- Witness for C5: on the payload with links `A→B` and the self-loop
`A→A`, node `A` gets 3 connections (the self-loop counts twice). -/
theorem claim_C5_witness :
    rnA.connections =
      (renderLinks plSelf).countP (fun r => r.source = rnA.name) +
        (renderLinks plSelf).countP (fun r => r.target = rnA.name) :=
  claim_C5 plSelf rnA (by decide)

/-- C7, counterexample: the claim places node counts 100–200 in the medium
tier, but the code's conditions are strict (`> 100`), so a count of exactly
100 gets the long-distance/strongest-repulsion tier while 150 gets the
medium one — 100 and 150 do not share a tier. -/
theorem claim_C7_counterexample :
    linkDistance 100 = 280 ∧ linkDistance 150 = 220 ∧
    chargeStrength 100 = -800 ∧ chargeStrength 150 = -600 := by
  refine ⟨by decide, by decide, by decide, by decide⟩

/-- C7 (amended): the three-tier policy is keyed on strict comparisons:
more than 200 nodes → shortest link distance (160) and weakest repulsion
(−400); 101–200 → medium (220, −600); at most 100 (not 100–200 /
below 100) → longest distance (280) and strongest repulsion (−800). -/
theorem claim_C7_amended (n : Nat) :
    (200 < n → linkDistance n = 160 ∧ chargeStrength n = -400) ∧
    (100 < n → n ≤ 200 → linkDistance n = 220 ∧ chargeStrength n = -600) ∧
    (n ≤ 100 → linkDistance n = 280 ∧ chargeStrength n = -800) ∧
    (linkDistance 300 < linkDistance 150 ∧ linkDistance 150 < linkDistance 80) ∧
    (chargeStrength 80 < chargeStrength 150 ∧
      chargeStrength 150 < chargeStrength 300) := by
  refine ⟨?_, ?_, ?_, by decide, by decide⟩ <;>
    · intros
      unfold linkDistance chargeStrength
      constructor <;> (split <;> try split) <;> omega

/-- Witness for C7 (amended) at one representative per tier. -/
theorem claim_C7_witness :
    (linkDistance 201 = 160 ∧ chargeStrength 201 = -400) ∧
    (linkDistance 150 = 220 ∧ chargeStrength 150 = -600) ∧
    (linkDistance 100 = 280 ∧ chargeStrength 100 = -800) :=
  ⟨(claim_C7_amended 201).1 (by decide),
    (claim_C7_amended 150).2.1 (by decide) (by decide),
    (claim_C7_amended 100).2.2.1 (by decide)⟩

/-- C8, counterexample: the claim says a single node is placed near the
minimap's center; in fact the zero ranges default to 1, giving scale
`min 140 100 = 100`, and the node lands at `(30, 10)` — 50 away from the
center `(80, 60)` on each axis of the 160×120 canvas, more than a quarter
of either dimension, i.e. not near the center. -/
theorem claim_C8_counterexample :
    minimapProject [(5, 7)] = [(30, 10)] ∧
    (80 : Rat) - 30 = 50 ∧ (60 : Rat) - 10 = 50 ∧
    (160 : Rat) / 4 < 50 ∧ (120 : Rat) / 4 < 50 := by
  refine ⟨?_, by norm_num, by norm_num, by norm_num, by norm_num⟩
  simp only [minimapProject, boundsOf, List.foldl_nil, safeRange]
  norm_num

/-- C8 (amended): the minimap projection replaces a zero-size extent by the
default range 1, so its divisors are never zero and the projection
completes; a single positioned node is then mapped to the fixed point
`(30, 10)` — the minimum corner of the centered projection box, not the
canvas center; and `zoomToFit` returns early on zero-extent bounds instead
of dividing by zero. -/
theorem claim_C8_amended (lo hi x y : Rat) (n : Nat) (bX bY bw bh w h : Rat) :
    safeRange lo hi ≠ 0 ∧
    minimapProject [(x, y)] = [(30, 10)] ∧
    (bw = 0 ∨ bh = 0 → zoomToFit n bX bY bw bh w h = none) := by
  refine ⟨?_, ?_, ?_⟩
  · unfold safeRange
    split
    · norm_num
    · assumption
  · simp only [minimapProject, boundsOf, List.foldl_nil, safeRange]
    norm_num
  · intro hz
    unfold zoomToFit
    by_cases hn : n = 0 <;> simp [hn, hz]

/-- Witness for C8 (amended) at concrete degenerate inputs. -/
theorem claim_C8_witness :
    safeRange 5 5 ≠ 0 ∧
    minimapProject [(5, 7)] = [(30, 10)] ∧
    zoomToFit 1 0 0 0 5 800 600 = none :=
  ⟨(claim_C8_amended 5 5 5 7 1 0 0 0 5 800 600).1,
    (claim_C8_amended 5 5 5 7 1 0 0 0 5 800 600).2.1,
    (claim_C8_amended 5 5 5 7 1 0 0 0 5 800 600).2.2 (Or.inl rfl)⟩

/-- C9: with a nonempty match set, `highlightNodes` marks a node
highlighted exactly when its lowered name is in the (lowered) match set and
faded exactly otherwise (node labels fade with their nodes), and fades a
link and its label exactly when neither endpoint's lowered name matches;
with an empty list it resets every class to neutral, independently of any
previous assignment (hence idempotently, with no residual faded state). -/
theorem claim_C9 (names nodeNames : List String)
    (linkEnds : List (String × String)) (prev prev2 : Classes) :
    (names ≠ [] →
      (highlightApply names nodeNames linkEnds prev).nodesHighlighted =
          nodeNames.map (fun nm => decide (lowerStr nm ∈ searchMatches names)) ∧
        (highlightApply names nodeNames linkEnds prev).nodesFaded =
          (highlightApply names nodeNames linkEnds prev).nodesHighlighted.map
            (fun b => !b) ∧
        (highlightApply names nodeNames linkEnds prev).nodeLabelsFaded =
          (highlightApply names nodeNames linkEnds prev).nodesFaded ∧
        (highlightApply names nodeNames linkEnds prev).linksFaded =
          linkEnds.map (fun e => decide (lowerStr e.1 ∉ searchMatches names ∧
            lowerStr e.2 ∉ searchMatches names)) ∧
        (highlightApply names nodeNames linkEnds prev).linkLabelsFaded =
          (highlightApply names nodeNames linkEnds prev).linksFaded) ∧
    highlightApply [] nodeNames linkEnds prev = neutralClasses nodeNames linkEnds ∧
    highlightApply [] nodeNames linkEnds
        (highlightApply names nodeNames linkEnds prev2) =
      neutralClasses nodeNames linkEnds ∧
    (neutralClasses nodeNames linkEnds).nodesFaded.all (fun b => !b) = true ∧
    (neutralClasses nodeNames linkEnds).linksFaded.all (fun b => !b) = true := by
  refine ⟨?_, by rfl, by rfl, by simp [neutralClasses], by simp [neutralClasses]⟩
  intro hne
  have hlen : ¬(names.length = 0) := by
    simpa [List.length_eq_zero] using hne
  unfold highlightApply
  simp only [hlen, if_false]
  refine ⟨?_, ?_, ?_, ?_, ?_⟩ <;>
    simp [List.map_map, Function.comp, List.contains, List.elem_eq_mem]

/-- Witness for C9 on the search scenario `"strat"` over
`{Strategy1, Strategy2, Belief1}`: the two matches are highlighted, the
third node is faded, and only the edge touching solely `Belief1` fades. -/
theorem claim_C9_witness :
    (highlightApply ["Strategy1", "Strategy2"]
        ["Strategy1", "Strategy2", "Belief1"]
        [("Strategy1", "Belief1"), ("Belief1", "Belief1")]
        (neutralClasses [] [])).nodesHighlighted = [true, true, false] ∧
    (highlightApply ["Strategy1", "Strategy2"]
        ["Strategy1", "Strategy2", "Belief1"]
        [("Strategy1", "Belief1"), ("Belief1", "Belief1")]
        (neutralClasses [] [])).linksFaded = [false, true] := by
  have h := (claim_C9 ["Strategy1", "Strategy2"]
    ["Strategy1", "Strategy2", "Belief1"]
    [("Strategy1", "Belief1"), ("Belief1", "Belief1")]
    (neutralClasses [] []) (neutralClasses [] [])).1 (by simp)
  constructor
  · rw [h.1]
    decide
  · rw [h.2.2.2.1]
    decide

end Mindmap
